import Mathlib

/-!
# Verification of the typingtxt Typing Session Engine

Shallow embedding of `src/typingtxt.py` (a terminal typing-practice game)
and proofs about its specification claims.

Modelling conventions:
* The expected character stream (`chars` in the Python source) is a
  `List Char` parameter.
* The live session state of `main_curses` (the global `entered_buffer`,
  the local `position`, `score`, `streak`, `multiplier`) is the structure
  `GameState`.  Python floats (`score`, `multiplier`) are modelled as
  rationals; every arithmetic operation the claims mention is exact on
  the values involved.
* Python's `str.isspace` / `str.isalnum` character tests are modelled on
  the ASCII range (the six ASCII whitespace characters, ASCII
  alphanumerics); the inputs considered by the claims are ASCII.
* Fallible I/O (`open` + `json.load`, `safe_write_json`) is modelled with
  `Except String`, surfacing a raised exception as an `error` value whose
  payload is the Python `str(e)` reason string.  A successfully parsed
  JSON payload is a dynamic `PyValue` (not a typed snapshot), because the
  source performs no shape validation: the restore path applies `int()` /
  `float()` / `.get` to whatever was parsed, and those coercions can
  raise; the model keeps them fallible.
-/

/-- `BASE_POINT_FACTOR = 10` from the source's score config. -/
def BASE_POINT_FACTOR : ℚ := 10

/-- `MULTIPLIER_START = 0.5` from the source's score config. -/
def MULTIPLIER_START : ℚ := 1/2

/-- `MULTIPLIER_STEP = 0.1` from the source's score config. -/
def MULTIPLIER_STEP : ℚ := 1/10

/-- `MULTIPLIER_MAX = 5.0` from the source's score config. -/
def MULTIPLIER_MAX : ℚ := 5

/-- Python `ch.isspace()` restricted to the ASCII whitespace characters
`' '`, `'\t'`, `'\n'`, `'\r'`, `'\x0b'`, `'\x0c'`. -/
def pyIsSpace (c : Char) : Bool :=
  c = ' ' || c = '\t' || c = '\n' || c = '\r' || c = '\x0b' || c = '\x0c'

/-- `is_word_char` from the source: `ch.isalnum() or ch == '_'`
(with `isalnum` modelled on ASCII). -/
def is_word_char (c : Char) : Bool :=
  c.isAlphanum || c = '_'

/-- The live session state owned by `main_curses`: the global
`entered_buffer` together with the loop-local `position`, `score`,
`streak` and `multiplier`. -/
structure GameState where
  buffer : List Char
  position : Nat
  score : ℚ
  streak : Nat
  multiplier : ℚ
  deriving Repr, DecidableEq

/-- The state at session start (lines 392-399 of the source):
empty buffer, position 0, score 0, streak 0, multiplier `MULTIPLIER_START`. -/
def freshState : GameState :=
  { buffer := [], position := 0, score := 0, streak := 0,
    multiplier := MULTIPLIER_START }

/-- The backward scan of `award_word_if_correct`:
`i = end_index - 1; while i >= 0 and not chars[i].isspace(): i -= 1;
word_start = i + 1`.  `findWordStart chars endIndex` is the resulting
`word_start`.  Callers guarantee `endIndex ≤ chars.length`, so the
`getD` default is never consulted there. -/
def findWordStart (chars : List Char) : Nat → Nat
  | 0 => 0
  | i + 1 => if pyIsSpace (chars.getD i ' ') then i + 1 else findWordStart chars i

/-- The correctness loop of `award_word_if_correct`:
`entered_buffer[k] == chars[k]` for every `k` in `[wordStart, wordEnd)`.
Callers guarantee both lists cover the range, so the `getD` defaults are
never consulted there. -/
def wordMatches (chars buf : List Char) (wordStart wordEnd : Nat) : Bool :=
  (List.range' wordStart (wordEnd - wordStart)).all
    fun k => buf.getD k ' ' == chars.getD k ' '

/-- `award_word_if_correct(end_index)` from the source (lines 439-473):
scan back for the word start, then no-op when the word is empty or the
buffer does not cover `[word_start, end_index)`; otherwise, if the whole
word was typed correctly, add `BASE_POINT_FACTOR * word_len * multiplier`
to the score, bump the streak, and step the multiplier capped at
`MULTIPLIER_MAX`. -/
def award_word_if_correct (chars : List Char) (g : GameState) (endIndex : Nat) :
    GameState :=
  let wordStart := findWordStart chars endIndex
  let wordLen := endIndex - wordStart
  if wordLen = 0 then g
  else if g.buffer.length < endIndex then g
  else if wordMatches chars g.buffer wordStart endIndex then
    { g with score := g.score + BASE_POINT_FACTOR * (wordLen : ℚ) * g.multiplier,
             streak := g.streak + 1,
             multiplier := min MULTIPLIER_MAX (g.multiplier + MULTIPLIER_STEP) }
  else g

/-- The Boolean guard under which `award_word_if_correct` changes the
state: positive word length, buffer covering the word, full match. -/
def awardFires (chars buf : List Char) (endIndex : Nat) : Bool :=
  !decide (endIndex - findWordStart chars endIndex = 0)
    && decide (endIndex ≤ buf.length)
    && wordMatches chars buf (findWordStart chars endIndex) endIndex

/-- `reset_streak_due_to_error` from the source (lines 475-478). -/
def reset_streak_due_to_error (g : GameState) : GameState :=
  { g with streak := 0, multiplier := MULTIPLIER_START }

/-- The regular printable-character branch of the input loop
(lines 632-642): remember the expected character, append `ch` and advance,
reset the streak when the expected character is absent or differs, then
evaluate the word boundary when the expected character at the new previous
index is whitespace. -/
def handleCharacter (chars : List Char) (ch : Char) (g : GameState) : GameState :=
  let g1 : GameState :=
    { g with buffer := g.buffer ++ [ch], position := g.position + 1 }
  let g2 :=
    match chars.get? g.position with
    | none => reset_streak_due_to_error g1
    | some e => if ch = e then g1 else reset_streak_due_to_error g1
  if g.position < chars.length ∧ pyIsSpace (chars.getD g.position ' ') = true then
    award_word_if_correct chars g2 g.position
  else g2

/-- The Enter branch of the input loop (lines 625-631): append a newline
and advance, then evaluate the word boundary when the expected character
at the new previous index is whitespace.  No streak reset occurs here. -/
def handleNewline (chars : List Char) (g : GameState) : GameState :=
  let g1 : GameState :=
    { g with buffer := g.buffer ++ ['\n'], position := g.position + 1 }
  if g.position < chars.length ∧ pyIsSpace (chars.getD g.position ' ') = true then
    award_word_if_correct chars g1 g.position
  else g1

/-- The Backspace branch of the input loop (lines 620-624): pop the last
buffer entry and decrement the position, a no-op on an empty buffer. -/
def handleBackspace (g : GameState) : GameState :=
  if g.buffer.isEmpty then g
  else { g with buffer := g.buffer.dropLast, position := g.position - 1 }

/-- The three-phase tail scan of `smart_delete_prev_word_buffer`,
operating on the reversed buffer so that Python's `buffer.pop()` becomes
dropping from the head.  Phase 1 drops trailing whitespace; phase 2 drops
a word-character run when the exposed tail is a word character; otherwise
phase 3 drops the punctuation run, then exposed whitespace, then an
exposed word-character run.  Returns the number of characters removed and
the remaining reversed buffer. -/
def smartDeleteCore (rev : List Char) : Nat × List Char :=
  let ws1 := rev.takeWhile pyIsSpace
  let r1 := rev.dropWhile pyIsSpace
  match r1 with
  | [] => (ws1.length, [])
  | c :: _ =>
    if is_word_char c then
      (ws1.length + (r1.takeWhile is_word_char).length,
        r1.dropWhile is_word_char)
    else
      let isPunct : Char → Bool := fun x => !is_word_char x && !pyIsSpace x
      let p := r1.takeWhile isPunct
      let r2 := r1.dropWhile isPunct
      let ws2 := r2.takeWhile pyIsSpace
      let r3 := r2.dropWhile pyIsSpace
      (ws1.length + p.length + ws2.length + (r3.takeWhile is_word_char).length,
        r3.dropWhile is_word_char)

/-- `smart_delete_prev_word_buffer` from the source (lines 296-319):
returns the count of characters removed together with the buffer that
remains (the Python version mutates the list and returns the count). -/
def smart_delete_prev_word_buffer (buf : List Char) : Nat × List Char :=
  if buf.isEmpty then (0, buf)
  else
    let r := smartDeleteCore buf.reverse
    (r.1, r.2.reverse)

/-- The Ctrl+W branch of the input loop (lines 616-619): remove the
previous word from the buffer tail and decrement the position by the
removed count (floored at 0, which `Nat` subtraction provides). -/
def handleSmartDelete (g : GameState) : GameState :=
  let r := smart_delete_prev_word_buffer g.buffer
  { g with buffer := r.2, position := g.position - r.1 }

/-- The four state-machine operations the claims quantify over. -/
inductive Op where
  | key (c : Char)
  | enter
  | back
  | smartdel
  deriving Repr, DecidableEq

/-- Dispatch of one input event to its handler. -/
def applyOp (chars : List Char) : Op → GameState → GameState
  | .key c => handleCharacter chars c
  | .enter => handleNewline chars
  | .back => handleBackspace
  | .smartdel => handleSmartDelete

/-- The completion check of the input loop (line 654):
`position >= total_chars`, with `total_chars = chars.length`. -/
def isComplete (chars : List Char) (g : GameState) : Bool :=
  chars.length ≤ g.position

/-- The persisted snapshot fields the claims are about: `position`,
`score`, `streak`, `multiplier` and the raw typed buffer `raw_entered`
(absent on legacy saves).  The remaining JSON fields (elapsed time,
correct/incorrect counts, timestamp, wrap width, filename) do not feed
back into these five on restore. -/
structure Snapshot where
  position : Nat
  score : ℚ
  streak : Nat
  multiplier : ℚ
  raw : Option (List Char)
  deriving Repr, DecidableEq

/-- The snapshot written by Ctrl+S (lines 577-600 building `metadata`,
`save_progress` adding `raw_entered = entered_buffer.copy()`). -/
def saveSnapshot (g : GameState) : Snapshot :=
  { position := g.position, score := g.score, streak := g.streak,
    multiplier := g.multiplier, raw := some g.buffer }

/-- The restore path of `main_curses` (lines 402-417): clamp the saved
position to `total_chars`, restore the buffer verbatim from `raw_entered`
when present, and otherwise synthesize the expected characters up to the
clamped position; restore score, streak and multiplier as saved. -/
def restoreSnapshot (chars : List Char) (s : Snapshot) : GameState :=
  let pos := min s.position chars.length
  let buf :=
    match s.raw with
    | some l => l
    | none => chars.take pos
  { buffer := buf, position := pos, score := s.score, streak := s.streak,
    multiplier := s.multiplier }

/-- The reachable session states exactly as claim C1 words them: states
produced from a fresh session, or from a restored snapshot (a snapshot the
program itself saved from a reachable state), by any sequence of the four
operations. -/
inductive Reachable (chars : List Char) : GameState → Prop
  | fresh : Reachable chars freshState
  | step (g : GameState) (op : Op) :
      Reachable chars g → Reachable chars (applyOp chars op g)
  | restored (g : GameState) :
      Reachable chars g →
      Reachable chars (restoreSnapshot chars (saveSnapshot g))

/-- Reachability as `Reachable`, except that a snapshot is only restored
when it was saved at a cursor position not exceeding `total_chars` (so the
restore-time clamp `min(position, total_chars)` is the identity). -/
inductive ReachableGuarded (chars : List Char) : GameState → Prop
  | fresh : ReachableGuarded chars freshState
  | step (g : GameState) (op : Op) :
      ReachableGuarded chars g → ReachableGuarded chars (applyOp chars op g)
  | restored (g : GameState) :
      ReachableGuarded chars g → g.position ≤ chars.length →
      ReachableGuarded chars (restoreSnapshot chars (saveSnapshot g))

/-- Test fixture: the spec's example stream `"cat dog"`. -/
def charsCat : List Char := "cat dog".toList

/-- Test fixture: session state with `"cat "` typed against `charsCat`. -/
def gCat : GameState :=
  { buffer := "cat ".toList, position := 4, score := 0, streak := 0,
    multiplier := MULTIPLIER_START }

/-- Test fixture: a four-character stream whose third entry is a space. -/
def charsMiss : List Char := ['a', 'b', ' ', 'c']

/-- Test fixture: session state with `"ab"` typed correctly against
`charsMiss`, cursor at the separator. -/
def gMiss : GameState :=
  { buffer := ['a', 'b'], position := 2, score := 0, streak := 0,
    multiplier := MULTIPLIER_START }

/-- Python `str.expandtabs(tabsize)`: a tab advances the column to the
next multiple of `tabsize` and is replaced by that many spaces; `'\n'`
and `'\r'` reset the column; every other character advances it by one. -/
def expandTabsAux (tabsize : Nat) : Nat → List Char → List Char
  | _, [] => []
  | col, c :: rest =>
    if c = '\t' then
      List.replicate (tabsize - col % tabsize) ' ' ++
        expandTabsAux tabsize (col + (tabsize - col % tabsize)) rest
    else if c = '\n' ∨ c = '\r' then c :: expandTabsAux tabsize 0 rest
    else c :: expandTabsAux tabsize (col + 1) rest

/-- `TextWrapper._munge_whitespace` under the flags `preprocess_text`
passes (`replace_whitespace=False`; `expand_tabs` keeps its default
`True` with `tabsize=8`): only tab expansion happens. -/
def mungeWhitespace (s : List Char) : List Char := expandTabsAux 8 0 s

def splitRunsAux (cls : Bool) (cur : List Char) : List Char → List (List Char)
  | [] => [cur.reverse]
  | c :: rest =>
    if pyIsSpace c = cls then splitRunsAux cls (c :: cur) rest
    else cur.reverse :: splitRunsAux (pyIsSpace c) [c] rest

/-- `TextWrapper._split`: the munged text cut into nonempty chunks, here
at the whitespace/non-whitespace run granularity.  (`wordsep_re`
additionally cuts hyphenated words into smaller chunks; that only refines
chunk boundaries, and every such chunking concatenates back to the munged
text, which is the property the wrap theorems rest on.) -/
def splitRuns : List Char → List (List Char)
  | [] => []
  | c :: rest => splitRunsAux (pyIsSpace c) [c] rest

/-- Python `chunk.rfind('-', 0, spaceLeft)`: the last index below
`spaceLeft` holding `'-'`, if any. -/
def lastHyphenIdx (l : List Char) : Option Nat :=
  (List.range l.length).foldl
    (fun acc i => if l.getD i ' ' = '-' then some i else acc) none

/-- The split point `end` computed by `TextWrapper._handle_long_word`
with `break_long_words=True` and `break_on_hyphens=True`: break after the
last hyphen before `spaceLeft` when it is preceded by a non-hyphen,
otherwise break at `spaceLeft`. -/
def longWordEnd (c : List Char) (spaceLeft : Nat) : Nat :=
  match lastHyphenIdx (c.take spaceLeft) with
  | some h => if 0 < h ∧ (c.take h).any (fun x => x != '-') then h + 1 else spaceLeft
  | none => spaceLeft

/-- The greedy inner loop of `TextWrapper._wrap_chunks`: pop chunks onto
the current line while they fit in `width`; returns the line's chunks and
the remaining chunks. -/
def takeFit (width : Nat) : Nat → List (List Char) → List (List Char) × List (List Char)
  | _, [] => ([], [])
  | curLen, c :: rest =>
    if curLen + c.length ≤ width then
      let r := takeFit width (curLen + c.length) rest
      (c :: r.1, r.2)
    else ([], c :: rest)

/-- Fuel bound for `wrapChunksF`: total character count plus chunk
count.  Every outer iteration of `_wrap_chunks` strictly decreases it. -/
def chunksMeasure (chunks : List (List Char)) : Nat :=
  (chunks.map List.length).sum + chunks.length

/-- `TextWrapper._wrap_chunks` under `preprocess_text`'s configuration
(`drop_whitespace=False`, no indents, `max_lines=None`, default
`break_long_words=True`, `break_on_hyphens=True`), written with explicit
fuel so the recursion is structural; callers pass
`chunksMeasure chunks + 1`, which the fuel-adequacy lemmas show is
enough.  (The `isEmpty` guards mirror Python's `if cur_line:`; the
guarded branches are reachable only in states proved impossible, where
Python itself would not terminate.) -/
def wrapChunksF (width : Nat) : Nat → List (List Char) → List (List Char)
  | _, [] => []
  | 0, _ => []
  | fuel + 1, chunks =>
    let t := takeFit width 0 chunks
    match t.2 with
    | [] => if t.1.isEmpty then [] else [t.1.flatten]
    | c :: rest =>
      if width < c.length then
        let curLen := (t.1.map List.length).sum
        let spaceLeft := if width < 1 then 1 else width - curLen
        let e := longWordEnd c spaceLeft
        (t.1 ++ [c.take e]).flatten :: wrapChunksF width fuel (c.drop e :: rest)
      else
        (if t.1.isEmpty then [] else [t.1.flatten]) ++ wrapChunksF width fuel (c :: rest)

/-- `textwrap.wrap(p, width=width, replace_whitespace=False,
drop_whitespace=False)` as called by `preprocess_text` (line 172). -/
def pyWrap (width : Nat) (s : List Char) : List (List Char) :=
  let chunks := splitRuns (mungeWhitespace s)
  wrapChunksF width (chunksMeasure chunks + 1) chunks

/-- The display lines `preprocess_text` produces for one paragraph
(lines 169-176): an empty paragraph gives one empty line, otherwise the
wrapped lines, falling back to one empty line if the wrapper returned
none. -/
def wrapParagraph (p : List Char) (width : Nat) : List (List Char) :=
  if p = [] then [[]]
  else
    let wrapped := pyWrap width p
    if wrapped = [] then [[]] else wrapped

/-- Python `text.split('\n')`: every newline separates, empty pieces are
kept, `n` newlines give `n + 1` pieces. -/
def splitOnNewline : List Char → List (List Char)
  | [] => [[]]
  | c :: rest =>
    if c = '\n' then [] :: splitOnNewline rest
    else
      match splitOnNewline rest with
      | [] => [[c]]
      | p :: ps => (c :: p) :: ps

/-- The output of `preprocess_text` the claims are about: the wrapped
display lines, the flattened stream and its length. -/
structure PreprocessResult where
  displayLines : List (List Char)
  chars : List Char
  totalChars : Nat
  deriving Repr, DecidableEq

/-- `preprocess_text` (lines 156-214): default the width to 80 when it is
missing or non-positive, split into paragraphs, wrap each, then flatten
the display lines into the stream with one newline entry between
consecutive lines (not after the last).  The throttled progress callbacks
are advisory and do not affect the output, so they are not modelled. -/
def preprocess_text (text : List Char) (width : Nat) : PreprocessResult :=
  let w := if width = 0 then 80 else width
  let dls := ((splitOnNewline text).map fun p => wrapParagraph p w).flatten
  let cs := List.intercalate ['\n'] dls
  { displayLines := dls, chars := cs, totalChars := cs.length }

/-- The JSON values `json.load` can hand back, as the dynamically typed
payload the source works with (the Boolean literals, which the snapshot
schema never uses, are omitted). -/
inductive PyValue where
  | pyNone : PyValue
  | pyInt : Int → PyValue
  | pyFloat : ℚ → PyValue
  | pyStr : String → PyValue
  | pyList : List PyValue → PyValue
  | pyDict : List (String × PyValue) → PyValue

/-- Python `dict.get(k, default)` on a parsed JSON object (keys assumed
distinct, as `json.load` keeps one value per key). -/
def pyGet (entries : List (String × PyValue)) (k : String) (dflt : PyValue) :
    PyValue :=
  match entries.find? (fun kv => kv.1 == k) with
  | some kv => kv.2
  | none => dflt

/-- Python truthiness of a parsed JSON value, as used by the caller's
`if data:` test (line 807): `None`, `0`, `""` and empty containers are
falsy. -/
def pyTruthy : PyValue → Bool
  | .pyNone => false
  | .pyInt n => !(n == 0)
  | .pyFloat q => !(q == 0)
  | .pyStr s => !(s == "")
  | .pyList l => !l.isEmpty
  | .pyDict d => !d.isEmpty

/-- Python `int(str)` literal parsing: strip surrounding whitespace, an
optional sign, then a nonempty digit run; anything else is a
`ValueError`.  (Underscore digit separators are not modelled.) -/
def parseDecimal (s : String) : Option Int :=
  let t := ((s.toList.dropWhile pyIsSpace).reverse.dropWhile pyIsSpace).reverse
  match t with
  | [] => none
  | c :: rest =>
    let signed : Int × List Char :=
      if c = '-' then (-1, rest) else if c = '+' then (1, rest) else (1, c :: rest)
    if signed.2 ≠ [] ∧ signed.2.all Char.isDigit then
      some (signed.1 *
        ((signed.2.foldl (fun acc d => acc * 10 + (d.toNat - Char.toNat '0')) 0 : Nat) : Int))
    else none

/-- Python `int(x)` on a parsed JSON value: ints pass through, floats
truncate toward zero, numeric strings parse, and everything else raises
(`error` carries the exception text). -/
def pyToInt : PyValue → Except String Int
  | .pyInt n => .ok n
  | .pyFloat q => .ok (if q < 0 then -(Rat.floor (-q)) else Rat.floor q)
  | .pyStr s =>
    match parseDecimal s with
    | some n => .ok n
    | none => .error ("ValueError: invalid literal for int() with base 10")
  | .pyNone => .error ("TypeError: int() argument cannot be NoneType")
  | .pyList _ => .error ("TypeError: int() argument cannot be a list")
  | .pyDict _ => .error ("TypeError: int() argument cannot be a dict")

/-- Python `float(x)` on a parsed JSON value: numbers pass through,
integer-literal strings parse (decimal-point literals are not modelled —
no claim depends on them), and everything else raises. -/
def pyToFloat : PyValue → Except String ℚ
  | .pyInt n => .ok (n : ℚ)
  | .pyFloat q => .ok q
  | .pyStr s =>
    match parseDecimal s with
    | some n => .ok (n : ℚ)
    | none => .error ("ValueError: could not convert string to float")
  | .pyNone => .error ("TypeError: float() argument cannot be NoneType")
  | .pyList _ => .error ("TypeError: float() argument cannot be a list")
  | .pyDict _ => .error ("TypeError: float() argument cannot be a dict")

/-- What the restore path of `main_curses` (lines 402-420) computes from
a loaded payload: the clamped position (kept as `Int`, since the payload
may carry any integer), the restored buffer entries (kept dynamic, since
Python appends whatever the raw list holds), and the scoring fields. -/
structure RestoredState where
  position : Int
  buffer : List PyValue
  score : ℚ
  streak : Int
  multiplier : ℚ
  elapsed : ℚ

/-- The `RestoredState` of a session that starts fresh instead of
resuming (lines 392-399). -/
def freshRestoredState : RestoredState :=
  { position := 0, buffer := [], score := 0, streak := 0,
    multiplier := MULTIPLIER_START, elapsed := 0 }

/-- `load_progress_file` (lines 355-361): `open` + `json.load` inside
`try/except`, modelled by an `Except` input whose `error` carries the
`str(e)` of whatever was raised; the function returns `(data, None)` on
success and `(None, reason)` on failure, and performs no validation of
the parsed value's shape. -/
def load_progress_file (readResult : Except String PyValue) :
    Option PyValue × Option String :=
  match readResult with
  | .ok d => (some d, none)
  | .error e => (none, some e)

/-- `save_progress` (lines 344-352): build the snapshot payload and hand
it to `safe_write_json` inside `try/except`; any raised exception is
returned as `(False, str(e))`, success as `(True, None)`. -/
def save_progress (writeResult : Except String Unit) : Bool × Option String :=
  match writeResult with
  | .ok _ => (true, none)
  | .error e => (false, some e)

/-- The restore of a loaded payload (lines 402-420, with the parallel
buffer restore of lines 857-869): `.get` on a non-dict raises
`AttributeError`; `int(get('position', 0))` is the first coercion and
raises on an ill-shaped field; the raw buffer is restored verbatim when
it is a list and otherwise synthesized from the expected characters up to
the clamped position; score, streak, multiplier and elapsed time are
coerced with `float()` / `int()`.  An `error` result is an uncaught
Python exception escaping the restore. -/
def restore_loaded_state (chars : List Char) (v : PyValue) :
    Except String RestoredState :=
  match v with
  | .pyDict d => do
    let posInt ← pyToInt (pyGet d ("position") (.pyInt 0))
    let position : Int := min posInt (chars.length : Int)
    let raw := pyGet d ("raw_entered") .pyNone
    let buffer : List PyValue :=
      match raw with
      | .pyList l => l
      | _ => (chars.take position.toNat).map fun c => PyValue.pyStr (String.mk [c])
    let score ← pyToFloat (pyGet d ("score") (.pyFloat 0))
    let streak ← pyToInt (pyGet d ("streak") (.pyInt 0))
    let multiplier ← pyToFloat (pyGet d ("multiplier") (.pyFloat MULTIPLIER_START))
    let elapsed ← pyToFloat (pyGet d ("elapsed_time") (.pyFloat 0))
    pure { position := position, buffer := buffer, score := score,
           streak := streak, multiplier := multiplier, elapsed := elapsed }
  | _ => .error ("AttributeError: object has no attribute get")

/-- The caller's load-then-restore flow (lines 801-828, 857-869,
402-420): a load that reports failure — or a falsy payload — leaves
`loaded_state = None` and the session starts fresh; a truthy payload is
restored with no shape validation, so an ill-shaped payload raises out of
the restore (an `error` result here) instead of falling back. -/
def sessionAfterLoad (chars : List Char) (readResult : Except String PyValue) :
    Except String RestoredState :=
  match load_progress_file readResult with
  | (some d, _) =>
    if pyTruthy d then restore_loaded_state chars d
    else .ok freshRestoredState
  | (none, _) => .ok freshRestoredState

theorem award_buffer_eq (chars : List Char) (g : GameState) (ei : Nat) :
    (award_word_if_correct chars g ei).buffer = g.buffer := by
  simp only [award_word_if_correct]
  split
  · rfl
  split
  · rfl
  split <;> rfl

theorem award_position_eq (chars : List Char) (g : GameState) (ei : Nat) :
    (award_word_if_correct chars g ei).position = g.position := by
  simp only [award_word_if_correct]
  split
  · rfl
  split
  · rfl
  split <;> rfl

theorem award_eq_of_fires (chars : List Char) (g : GameState) (ei : Nat)
    (h : awardFires chars g.buffer ei = true) :
    award_word_if_correct chars g ei =
      { g with
          score := g.score +
            BASE_POINT_FACTOR * ((ei - findWordStart chars ei : Nat) : ℚ) * g.multiplier,
          streak := g.streak + 1,
          multiplier := min MULTIPLIER_MAX (g.multiplier + MULTIPLIER_STEP) } := by
  simp only [awardFires, Bool.and_eq_true, Bool.not_eq_true', decide_eq_false_iff_not,
    decide_eq_true_eq] at h
  obtain ⟨⟨h1, h2⟩, h3⟩ := h
  simp only [award_word_if_correct]
  rw [if_neg h1, if_neg (by omega), if_pos h3]

theorem award_eq_of_not_fires (chars : List Char) (g : GameState) (ei : Nat)
    (h : awardFires chars g.buffer ei = false) :
    award_word_if_correct chars g ei = g := by
  simp only [awardFires, Bool.and_eq_false_iff, Bool.not_eq_false', decide_eq_true_eq,
    decide_eq_false_iff_not, not_le] at h
  simp only [award_word_if_correct]
  rcases h with (h1 | h2) | h3
  · rw [if_pos h1]
  · by_cases h1 : ei - findWordStart chars ei = 0
    · rw [if_pos h1]
    · rw [if_neg h1, if_pos h2]
  · by_cases h1 : ei - findWordStart chars ei = 0
    · rw [if_pos h1]
    · by_cases h2 : g.buffer.length < ei
      · rw [if_neg h1, if_pos h2]
      · rw [if_neg h1, if_neg h2, if_neg (by simp [h3])]

/-- C3: `evaluateWordBoundary(separatorIndex)` — with the word range
`[wordStart, separatorIndex)` obtained by the backward scan — awards
`BASE_POINT_FACTOR * wordLength * multiplier`, bumps the streak and steps
the multiplier (capped at `MULTIPLIER_MAX`) exactly when the word length
is positive, the typed buffer covers the range, and every typed character
in the range matches; in every other case (empty word, uncovered range,
or any mismatch) the score, streak and multiplier are unchanged. -/
theorem award_word_boundary_spec (chars : List Char) (g : GameState) (endIndex : Nat)
    (_hrange : endIndex ≤ chars.length) :
    ((0 < endIndex - findWordStart chars endIndex ∧ endIndex ≤ g.buffer.length ∧
        wordMatches chars g.buffer (findWordStart chars endIndex) endIndex = true) →
      award_word_if_correct chars g endIndex =
        { g with
            score := g.score +
              BASE_POINT_FACTOR *
                ((endIndex - findWordStart chars endIndex : Nat) : ℚ) * g.multiplier,
            streak := g.streak + 1,
            multiplier := min MULTIPLIER_MAX (g.multiplier + MULTIPLIER_STEP) })
    ∧ ((endIndex - findWordStart chars endIndex = 0 ∨ g.buffer.length < endIndex ∨
        wordMatches chars g.buffer (findWordStart chars endIndex) endIndex = false) →
      award_word_if_correct chars g endIndex = g) := by
  constructor
  · rintro ⟨h1, h2, h3⟩
    exact award_eq_of_fires chars g endIndex
      (by simp only [awardFires, Bool.and_eq_true, Bool.not_eq_true',
            decide_eq_false_iff_not, decide_eq_true_eq]
          exact ⟨⟨by omega, h2⟩, h3⟩)
  · intro h
    apply award_eq_of_not_fires chars g endIndex
    simp only [awardFires, Bool.and_eq_false_iff, Bool.not_eq_false', decide_eq_true_eq,
      decide_eq_false_iff_not, not_le]
    rcases h with h1 | h2 | h3
    · exact Or.inl (Or.inl h1)
    · exact Or.inl (Or.inr h2)
    · exact Or.inr (by simp [h3])

/-- Witness for C3 at the spec's own example: stream `"cat dog"`, buffer
`"cat "`, separator index 3. -/
theorem award_word_boundary_spec_witness :
    (0 < 3 - findWordStart charsCat 3 ∧ 3 ≤ gCat.buffer.length ∧
      wordMatches charsCat gCat.buffer (findWordStart charsCat 3) 3 = true) ∧
    award_word_if_correct charsCat gCat 3 =
      { gCat with
          score := gCat.score +
            BASE_POINT_FACTOR * ((3 - findWordStart charsCat 3 : Nat) : ℚ) * gCat.multiplier,
          streak := gCat.streak + 1,
          multiplier := min MULTIPLIER_MAX (gCat.multiplier + MULTIPLIER_STEP) } :=
  ⟨⟨by decide, by decide, by decide⟩,
    (award_word_boundary_spec charsCat gCat 3 (by decide)).1
      ⟨by decide, by decide, by decide⟩⟩

/-- Counterexample to C4: against stream `"ab c"`-like `charsMiss` with
`"ab"` already typed, typing `'x'` where `' '` is expected is a miss, yet
after `handleCharacter` the streak is 1, not 0: the word-boundary
evaluation runs after the reset and re-awards the word `"ab"`. -/
theorem streak_reset_on_miss_counterexample :
    charsMiss.get? gMiss.position ≠ some 'x' ∧
    ¬((handleCharacter charsMiss 'x' gMiss).streak = 0 ∧
      (handleCharacter charsMiss 'x' gMiss).multiplier = MULTIPLIER_START) := by
  decide

/-- C4 amended: on a miss (expected character absent or different),
`handleCharacter` resets streak and multiplier, but the word-boundary
evaluation runs afterwards; so the final state has streak 0 and
multiplier `MULTIPLIER_START` unless the expected character at the cursor
was whitespace and the preceding word fully matches, in which case the
award leaves streak 1 and multiplier `MULTIPLIER_START + MULTIPLIER_STEP`. -/
theorem streak_reset_on_miss (chars : List Char) (g : GameState) (ch : Char)
    (hmiss : chars.get? g.position ≠ some ch) :
    ((handleCharacter chars ch g).streak, (handleCharacter chars ch g).multiplier) =
      if g.position < chars.length ∧ pyIsSpace (chars.getD g.position ' ') = true ∧
          awardFires chars (g.buffer ++ [ch]) g.position = true
      then (1, MULTIPLIER_START + MULTIPLIER_STEP)
      else (0, MULTIPLIER_START) := by
  have hmin : min MULTIPLIER_MAX (MULTIPLIER_START + MULTIPLIER_STEP) =
      MULTIPLIER_START + MULTIPLIER_STEP := by
    rw [min_eq_right]
    rw [MULTIPLIER_MAX, MULTIPLIER_START, MULTIPLIER_STEP]
    norm_num
  have key :
      ((if g.position < chars.length ∧ pyIsSpace (chars.getD g.position ' ') = true then
          award_word_if_correct chars
            (reset_streak_due_to_error
              { g with buffer := g.buffer ++ [ch], position := g.position + 1 })
            g.position
        else reset_streak_due_to_error
          { g with buffer := g.buffer ++ [ch], position := g.position + 1 }).streak,
       (if g.position < chars.length ∧ pyIsSpace (chars.getD g.position ' ') = true then
          award_word_if_correct chars
            (reset_streak_due_to_error
              { g with buffer := g.buffer ++ [ch], position := g.position + 1 })
            g.position
        else reset_streak_due_to_error
          { g with buffer := g.buffer ++ [ch], position := g.position + 1 }).multiplier) =
        if g.position < chars.length ∧ pyIsSpace (chars.getD g.position ' ') = true ∧
            awardFires chars (g.buffer ++ [ch]) g.position = true
        then (1, MULTIPLIER_START + MULTIPLIER_STEP)
        else (0, MULTIPLIER_START) := by
    by_cases hsep : g.position < chars.length ∧ pyIsSpace (chars.getD g.position ' ') = true
    · rw [if_pos hsep]
      by_cases hf : awardFires chars (g.buffer ++ [ch]) g.position = true
      · rw [award_eq_of_fires chars _ g.position hf, if_pos ⟨hsep.1, hsep.2, hf⟩]
        show (0 + 1, min MULTIPLIER_MAX (MULTIPLIER_START + MULTIPLIER_STEP)) = _
        rw [hmin]
      · have hf0 : awardFires chars (g.buffer ++ [ch]) g.position = false := by
          simpa using hf
        rw [award_eq_of_not_fires chars _ g.position hf0,
          if_neg (fun hcond => hf hcond.2.2)]
        rfl
    · rw [if_neg hsep, if_neg (fun hcond => hsep ⟨hcond.1, hcond.2.1⟩)]
      rfl
  rcases hc : chars.get? g.position with _ | e
  · simpa only [handleCharacter, hc] using key
  · have hne : ch ≠ e := fun he => hmiss (by rw [hc, he])
    simpa only [handleCharacter, hc, if_neg hne] using key

/-- Witness for the amended C4: a miss at a non-separator position
(stream `"cat dog"`, cursor 0, typing `'x'` where `'c'` is expected)
leaves streak 0 and multiplier `MULTIPLIER_START`. -/
theorem streak_reset_on_miss_witness :
    charsCat.get? 0 ≠ some 'x' ∧
    ((handleCharacter charsCat 'x' freshState).streak,
     (handleCharacter charsCat 'x' freshState).multiplier) = (0, MULTIPLIER_START) := by
  refine ⟨by decide, ?_⟩
  rw [streak_reset_on_miss charsCat freshState 'x' (by decide), if_neg (by decide)]

/-- C5: `handleNewline` never resets the streak or multiplier by itself —
for every state, its only scoring effect is the word-boundary award when
the expected character at the new previous index is whitespace; a
mismatched Enter keystroke leaves score, streak and multiplier untouched. -/
theorem newline_never_resets (chars : List Char) (g : GameState) :
    ((handleNewline chars g).score = g.score ∧
      (handleNewline chars g).streak = g.streak ∧
      (handleNewline chars g).multiplier = g.multiplier)
    ∨ ((g.position < chars.length ∧ pyIsSpace (chars.getD g.position ' ') = true) ∧
        (handleNewline chars g).score = g.score +
          BASE_POINT_FACTOR *
            ((g.position - findWordStart chars g.position : Nat) : ℚ) * g.multiplier ∧
        (handleNewline chars g).streak = g.streak + 1 ∧
        (handleNewline chars g).multiplier =
          min MULTIPLIER_MAX (g.multiplier + MULTIPLIER_STEP)) := by
  simp only [handleNewline]
  by_cases hsep : g.position < chars.length ∧ pyIsSpace (chars.getD g.position ' ') = true
  · rw [if_pos hsep]
    by_cases hf : awardFires chars (g.buffer ++ ['\n']) g.position = true
    · right
      rw [award_eq_of_fires chars _ g.position hf]
      exact ⟨hsep, rfl, rfl, rfl⟩
    · left
      have hf0 : awardFires chars (g.buffer ++ ['\n']) g.position = false := by
        simpa using hf
      rw [award_eq_of_not_fires chars _ g.position hf0]
      exact ⟨rfl, rfl, rfl⟩
  · rw [if_neg hsep]
    left
    exact ⟨rfl, rfl, rfl⟩

theorem takeWhile_add_dropWhile_length (p : Char → Bool) (l : List Char) :
    (l.takeWhile p).length + (l.dropWhile p).length = l.length := by
  conv_rhs => rw [← List.takeWhile_append_dropWhile (p := p) (l := l)]
  rw [List.length_append]

theorem smartDeleteCore_length (rev : List Char) :
    (smartDeleteCore rev).1 + (smartDeleteCore rev).2.length = rev.length := by
  have h0 := takeWhile_add_dropWhile_length pyIsSpace rev
  cases hr : rev.dropWhile pyIsSpace with
  | nil =>
    simp only [smartDeleteCore, hr]
    rw [hr] at h0
    simpa using h0
  | cons c rest =>
    simp only [smartDeleteCore, hr]
    rw [hr] at h0
    by_cases hw : is_word_char c = true
    · rw [if_pos hw]
      have h1 := takeWhile_add_dropWhile_length is_word_char (c :: rest)
      simp only [List.length_cons] at h0 h1 ⊢
      omega
    · rw [if_neg hw]
      have h1 := takeWhile_add_dropWhile_length
        (fun x => !is_word_char x && !pyIsSpace x) (c :: rest)
      have h2 := takeWhile_add_dropWhile_length pyIsSpace
        ((c :: rest).dropWhile fun x => !is_word_char x && !pyIsSpace x)
      have h3 := takeWhile_add_dropWhile_length is_word_char
        (((c :: rest).dropWhile fun x => !is_word_char x && !pyIsSpace x).dropWhile
          pyIsSpace)
      simp only [List.length_cons] at h0 h1 h2 h3 ⊢
      omega

theorem smart_delete_length (buf : List Char) :
    (smart_delete_prev_word_buffer buf).1 +
      (smart_delete_prev_word_buffer buf).2.length = buf.length := by
  simp only [smart_delete_prev_word_buffer]
  by_cases h : buf.isEmpty = true
  · rw [if_pos h]
    simp
  · rw [if_neg h]
    have := smartDeleteCore_length buf.reverse
    simp only [List.length_reverse] at this ⊢
    exact this

/-- Counterexample to C6: on the buffer `"hello, world"` one smart delete
does not leave `"hello,"` — the tail `'d'` is a word character, so only
the word-character run `"world"` is popped and the separator space
survives. -/
theorem smart_delete_hello_counterexample :
    (smart_delete_prev_word_buffer ("hello, world".toList)).2 ≠ "hello,".toList := by
  decide

/-- C6 amended: on the buffer `"hello, world"` one smart delete pops
exactly the word-character run `"world"` (phase 1 finds no trailing
whitespace, phase 2 applies since `'d'` is alphanumeric), leaving
`"hello, "` with its trailing separator space and returning the removal
count 5. -/
theorem smart_delete_hello :
    smart_delete_prev_word_buffer ("hello, world".toList) = (5, "hello, ".toList) := by
  decide

theorem handleCharacter_buffer (chars : List Char) (ch : Char) (g : GameState) :
    (handleCharacter chars ch g).buffer = g.buffer ++ [ch] := by
  cases hc : chars.get? g.position with
  | none =>
    simp only [handleCharacter, hc]
    split
    · rw [award_buffer_eq]
      rfl
    · rfl
  | some e =>
    simp only [handleCharacter, hc]
    split
    · rw [award_buffer_eq]
      split <;> rfl
    · split <;> rfl

theorem handleCharacter_position (chars : List Char) (ch : Char) (g : GameState) :
    (handleCharacter chars ch g).position = g.position + 1 := by
  cases hc : chars.get? g.position with
  | none =>
    simp only [handleCharacter, hc]
    split
    · rw [award_position_eq]
      rfl
    · rfl
  | some e =>
    simp only [handleCharacter, hc]
    split
    · rw [award_position_eq]
      split <;> rfl
    · split <;> rfl

theorem handleNewline_buffer (chars : List Char) (g : GameState) :
    (handleNewline chars g).buffer = g.buffer ++ ['\n'] := by
  simp only [handleNewline]
  split
  · rw [award_buffer_eq]
  · rfl

theorem handleNewline_position (chars : List Char) (g : GameState) :
    (handleNewline chars g).position = g.position + 1 := by
  simp only [handleNewline]
  split
  · rw [award_position_eq]
  · rfl

theorem applyOp_preserves_len (chars : List Char) (op : Op) (g : GameState)
    (h : g.buffer.length = g.position) :
    (applyOp chars op g).buffer.length = (applyOp chars op g).position := by
  cases op with
  | key c =>
    simp only [applyOp, handleCharacter_buffer, handleCharacter_position,
      List.length_append, List.length_cons, List.length_nil, h]
  | enter =>
    simp only [applyOp, handleNewline_buffer, handleNewline_position,
      List.length_append, List.length_cons, List.length_nil, h]
  | back =>
    simp only [applyOp, handleBackspace]
    by_cases hb : g.buffer.isEmpty = true
    · rw [if_pos hb]
      exact h
    · rw [if_neg hb]
      have hne : g.buffer.length ≠ 0 := by
        intro h0
        rw [List.length_eq_zero.mp h0] at hb
        exact hb rfl
      simp only [List.length_dropLast]
      omega
  | smartdel =>
    simp only [applyOp, handleSmartDelete]
    have hl := smart_delete_length g.buffer
    omega

/-- C1 amended: the invariant `length(typedBuffer) == cursorPosition`
holds in every state reachable from a fresh session, or from a restored
snapshot saved at a cursor position not exceeding `totalChars`, by any
sequence of the four operations.  (The restriction on restored snapshots
is forced by `invariant_counterexample`.) -/
theorem buffer_length_invariant (chars : List Char) (g : GameState)
    (h : ReachableGuarded chars g) : g.buffer.length = g.position := by
  induction h with
  | fresh => rfl
  | step g op _ ih => exact applyOp_preserves_len chars op g ih
  | restored g _ hpos ih =>
    simp only [restoreSnapshot, saveSnapshot]
    rw [min_eq_left hpos]
    exact ih

/-- Witness for the amended C1 at a concrete reachable state that also
exercises the restore constructor. -/
theorem buffer_length_invariant_witness :
    (restoreSnapshot charsCat
        (saveSnapshot (applyOp charsCat (Op.key 'c') freshState))).buffer.length =
      (restoreSnapshot charsCat
        (saveSnapshot (applyOp charsCat (Op.key 'c') freshState))).position :=
  buffer_length_invariant charsCat _
    (ReachableGuarded.restored _
      (ReachableGuarded.step _ _ ReachableGuarded.fresh) (by decide))

/-- Counterexample to C1 as stated: with the one-character stream `['a']`,
pressing Enter twice (each Enter path skips the completion check) reaches
position 2, and restoring the snapshot the program saves there clamps the
position to 1 while keeping the two-entry raw buffer, so the restored
reachable state has `length(typedBuffer) = 2 ≠ 1 = cursorPosition`. -/
theorem invariant_counterexample :
    Reachable ['a']
      (restoreSnapshot ['a']
        (saveSnapshot (applyOp ['a'] Op.enter (applyOp ['a'] Op.enter freshState)))) ∧
    (restoreSnapshot ['a']
        (saveSnapshot
          (applyOp ['a'] Op.enter (applyOp ['a'] Op.enter freshState)))).buffer.length ≠
      (restoreSnapshot ['a']
        (saveSnapshot
          (applyOp ['a'] Op.enter (applyOp ['a'] Op.enter freshState)))).position :=
  ⟨Reachable.restored _ (Reachable.step _ _ (Reachable.step _ _ Reachable.fresh)),
    by decide⟩

/-- Counterexample to C7 as stated: the reachable state after typing two
Enters against the one-character stream `['a']` has cursor position 2;
saving and loading it clamps the position to `min 2 1 = 1`, so the
round-trip does not reconstruct the cursor position. -/
theorem snapshot_roundtrip_counterexample :
    Reachable ['a'] (applyOp ['a'] Op.enter (applyOp ['a'] Op.enter freshState)) ∧
    (restoreSnapshot ['a']
        (saveSnapshot (applyOp ['a'] Op.enter (applyOp ['a'] Op.enter freshState)))).position ≠
      (applyOp ['a'] Op.enter (applyOp ['a'] Op.enter freshState)).position :=
  ⟨Reachable.step _ _ (Reachable.step _ _ Reachable.fresh), by decide⟩

/-- C7 amended: for every reachable state whose cursor position does not
exceed `totalChars` (the only case the counterexample excludes), saving
and then loading reconstructs the cursor position, score, streak,
multiplier, and the raw typed buffer element for element. -/
theorem snapshot_roundtrip (chars : List Char) (g : GameState)
    (_h : Reachable chars g) (hpos : g.position ≤ chars.length) :
    (restoreSnapshot chars (saveSnapshot g)).position = g.position ∧
    (restoreSnapshot chars (saveSnapshot g)).score = g.score ∧
    (restoreSnapshot chars (saveSnapshot g)).streak = g.streak ∧
    (restoreSnapshot chars (saveSnapshot g)).multiplier = g.multiplier ∧
    (restoreSnapshot chars (saveSnapshot g)).buffer = g.buffer := by
  simp only [restoreSnapshot, saveSnapshot]
  refine ⟨min_eq_left hpos, ?_, ?_, ?_, ?_⟩ <;> trivial

/-- Witness for the amended C7 at the reachable state reached by typing
`'c'` against `"cat dog"`. -/
theorem snapshot_roundtrip_witness :
    (applyOp charsCat (Op.key 'c') freshState).position ≤ charsCat.length ∧
    (restoreSnapshot charsCat
        (saveSnapshot (applyOp charsCat (Op.key 'c') freshState))).buffer =
      (applyOp charsCat (Op.key 'c') freshState).buffer :=
  ⟨by decide,
    (snapshot_roundtrip charsCat _ (Reachable.step _ _ Reachable.fresh)
      (by decide)).2.2.2.2⟩

theorem handleBackspace_position_le (g : GameState) :
    (handleBackspace g).position ≤ g.position := by
  simp only [handleBackspace]
  split
  · exact le_refl _
  · exact Nat.sub_le _ _

theorem handleSmartDelete_position_le (g : GameState) :
    (handleSmartDelete g).position ≤ g.position :=
  Nat.sub_le _ _

/-- C8: `isComplete` is true exactly when the cursor position has reached
`totalChars`, and a step of any of the four operations can turn an
incomplete state into a complete one only by landing the position exactly
on `totalChars` — the session never becomes complete while
`cursorPosition < totalChars`. -/
theorem completion_spec (chars : List Char) (g : GameState) (op : Op) :
    (isComplete chars g = true ↔ chars.length ≤ g.position) ∧
    (isComplete chars g = false → isComplete chars (applyOp chars op g) = true →
      (applyOp chars op g).position = chars.length) := by
  constructor
  · simp [isComplete]
  · intro h0 h1
    simp only [isComplete, decide_eq_true_eq, decide_eq_false_iff_not, not_le] at h0 h1
    cases op with
    | key c =>
      rw [applyOp, handleCharacter_position] at h1 ⊢
      omega
    | enter =>
      rw [applyOp, handleNewline_position] at h1 ⊢
      omega
    | back =>
      have := handleBackspace_position_le g
      rw [applyOp] at h1 ⊢
      omega
    | smartdel =>
      have := handleSmartDelete_position_le g
      rw [applyOp] at h1 ⊢
      omega

/-- Witness for C8: typing the only character of the stream `['a']`
completes the session exactly at position `totalChars = 1`. -/
theorem completion_spec_witness :
    isComplete ['a'] freshState = false ∧
    (applyOp ['a'] (Op.key 'a') freshState).position = ['a'].length :=
  ⟨by decide,
    (completion_spec ['a'] freshState (Op.key 'a')).2 (by decide) (by decide)⟩

theorem mult_start_nonneg : (0 : ℚ) ≤ MULTIPLIER_START := by
  rw [MULTIPLIER_START]
  norm_num

theorem award_score_mono (chars : List Char) (g : GameState) (ei : Nat)
    (h : 0 ≤ g.multiplier) : g.score ≤ (award_word_if_correct chars g ei).score := by
  by_cases hf : awardFires chars g.buffer ei = true
  · rw [award_eq_of_fires chars g ei hf]
    have hnn : 0 ≤ BASE_POINT_FACTOR * ((ei - findWordStart chars ei : Nat) : ℚ) *
        g.multiplier := by
      apply mul_nonneg (mul_nonneg _ _) h
      · rw [BASE_POINT_FACTOR]
        norm_num
      · exact Nat.cast_nonneg _
    show g.score ≤ g.score + _
    linarith
  · rw [award_eq_of_not_fires chars g ei (by simpa using hf)]

theorem award_mult_nonneg (chars : List Char) (g : GameState) (ei : Nat)
    (h : 0 ≤ g.multiplier) : 0 ≤ (award_word_if_correct chars g ei).multiplier := by
  by_cases hf : awardFires chars g.buffer ei = true
  · rw [award_eq_of_fires chars g ei hf]
    show 0 ≤ min MULTIPLIER_MAX (g.multiplier + MULTIPLIER_STEP)
    apply le_min
    · rw [MULTIPLIER_MAX]
      norm_num
    · have : (0 : ℚ) ≤ MULTIPLIER_STEP := by
        rw [MULTIPLIER_STEP]
        norm_num
      linarith
  · rw [award_eq_of_not_fires chars g ei (by simpa using hf)]
    exact h

theorem handleCharacter_mult_nonneg (chars : List Char) (ch : Char) (g : GameState)
    (h : 0 ≤ g.multiplier) : 0 ≤ (handleCharacter chars ch g).multiplier := by
  cases hc : chars.get? g.position with
  | none =>
    simp only [handleCharacter, hc]
    split
    · exact award_mult_nonneg chars _ g.position mult_start_nonneg
    · exact mult_start_nonneg
  | some e =>
    simp only [handleCharacter, hc]
    split
    · apply award_mult_nonneg
      split
      · exact h
      · exact mult_start_nonneg
    · split
      · exact h
      · exact mult_start_nonneg

theorem handleNewline_mult_nonneg (chars : List Char) (g : GameState)
    (h : 0 ≤ g.multiplier) : 0 ≤ (handleNewline chars g).multiplier := by
  simp only [handleNewline]
  split
  · exact award_mult_nonneg chars _ g.position h
  · exact h

theorem reachable_mult_nonneg (chars : List Char) (g : GameState)
    (h : Reachable chars g) : 0 ≤ g.multiplier := by
  induction h with
  | fresh => exact mult_start_nonneg
  | step g op _ ih =>
    cases op with
    | key c => exact handleCharacter_mult_nonneg chars c g ih
    | enter => exact handleNewline_mult_nonneg chars g ih
    | back =>
      simp only [applyOp, handleBackspace]
      split
      · exact ih
      · exact ih
    | smartdel => exact ih
  | restored g _ ih =>
    simp only [restoreSnapshot, saveSnapshot]
    exact ih

theorem handleBackspace_score (g : GameState) :
    (handleBackspace g).score = g.score := by
  simp only [handleBackspace]
  split <;> rfl

theorem handleCharacter_score_mono (chars : List Char) (ch : Char) (g : GameState)
    (h : 0 ≤ g.multiplier) : g.score ≤ (handleCharacter chars ch g).score := by
  cases hc : chars.get? g.position with
  | none =>
    simp only [handleCharacter, hc]
    split
    · exact award_score_mono chars _ g.position mult_start_nonneg
    · exact le_refl _
  | some e =>
    simp only [handleCharacter, hc]
    split
    · refine le_trans (le_of_eq ?_) (award_score_mono chars _ g.position ?_)
      · split <;> rfl
      · split
        · exact h
        · exact mult_start_nonneg
    · split <;> exact le_refl _

theorem handleNewline_score_mono (chars : List Char) (g : GameState)
    (h : 0 ≤ g.multiplier) : g.score ≤ (handleNewline chars g).score := by
  simp only [handleNewline]
  split
  · exact award_score_mono chars _ g.position h
  · exact le_refl _

/-- C10: the score never decreases — every one of the four operations,
applied to a reachable state, leaves the score unchanged or larger, and
backspace and smart delete leave it exactly unchanged (so deleting past
an already-scored word keeps its points and retyping the word can award
it again). -/
theorem score_monotone (chars : List Char) (g : GameState) (op : Op)
    (h : Reachable chars g) :
    g.score ≤ (applyOp chars op g).score ∧
    (handleBackspace g).score = g.score ∧
    (handleSmartDelete g).score = g.score := by
  have hm := reachable_mult_nonneg chars g h
  refine ⟨?_, handleBackspace_score g, rfl⟩
  cases op with
  | key c => exact handleCharacter_score_mono chars c g hm
  | enter => exact handleNewline_score_mono chars g hm
  | back => exact le_of_eq (handleBackspace_score g).symm
  | smartdel => exact le_refl _

/-- Witness for C10: typing the correct first character of `"cat dog"`
from the fresh state does not decrease the score. -/
theorem score_monotone_witness :
    freshState.score ≤ (applyOp charsCat (Op.key 'c') freshState).score :=
  (score_monotone charsCat freshState (Op.key 'c') Reachable.fresh).1

/-- C9, evaluated at the failing input: on the shape-malformed but
valid-JSON snapshot `{"position": "abc"}`, `load_progress_file` reports
success with no reason string, and the session then raises a
`ValueError` out of the restore instead of falling back to a fresh
session — against the claim and the spec's `load ... validates shape;
malformed or unreadable snapshots report failure and must not crash the
session`.  The parts of the claim the code does satisfy are recorded
too: an unreadable snapshot yields a `(None, reason)` failure result and
the fresh-session fallback, and a failed save returns `(False, reason)`
rather than raising. -/
theorem load_shape_bug :
    load_progress_file
        (Except.ok (PyValue.pyDict [(("position"), PyValue.pyStr ("abc"))])) =
      (some (PyValue.pyDict [(("position"), PyValue.pyStr ("abc"))]), none) ∧
    sessionAfterLoad []
        (Except.ok (PyValue.pyDict [(("position"), PyValue.pyStr ("abc"))])) =
      Except.error ("ValueError: invalid literal for int() with base 10") ∧
    sessionAfterLoad []
        (Except.ok (PyValue.pyDict [(("position"), PyValue.pyStr ("abc"))])) ≠
      Except.ok freshRestoredState ∧
    (∀ e : String,
      load_progress_file (Except.error e) = (none, some e) ∧
      sessionAfterLoad [] (Except.error e) = Except.ok freshRestoredState ∧
      save_progress (Except.error e) = (false, some e)) := by
  refine ⟨rfl, rfl, ?_, fun e => ⟨rfl, rfl, rfl⟩⟩
  intro h
  have h2 : sessionAfterLoad []
      (Except.ok (PyValue.pyDict [(("position"), PyValue.pyStr ("abc"))])) =
      Except.error ("ValueError: invalid literal for int() with base 10") := rfl
  rw [h2] at h
  exact Except.noConfusion h

theorem expandTabsAux_no_tab : ∀ (l : List Char) (col : Nat),
    '\t' ∉ l → expandTabsAux 8 col l = l := by
  intro l
  induction l with
  | nil => intro col _; rfl
  | cons c rest ih =>
    intro col hmem
    have hc : c ≠ '\t' := fun h => hmem (h ▸ List.mem_cons_self c rest)
    have hrest : '\t' ∉ rest := fun h => hmem (List.mem_cons_of_mem c h)
    simp only [expandTabsAux, if_neg hc]
    split
    · rw [ih 0 hrest]
    · rw [ih (col + 1) hrest]

theorem mungeWhitespace_no_tab (p : List Char) (h : '\t' ∉ p) :
    mungeWhitespace p = p :=
  expandTabsAux_no_tab p 0 h

theorem splitRunsAux_flatten : ∀ (l : List Char) (cls : Bool) (cur : List Char),
    (splitRunsAux cls cur l).flatten = cur.reverse ++ l := by
  intro l
  induction l with
  | nil => intro cls cur; simp [splitRunsAux]
  | cons c rest ih =>
    intro cls cur
    simp only [splitRunsAux]
    split
    · rw [ih]
      simp
    · simp only [List.flatten_cons, ih]
      simp

theorem splitRuns_flatten (s : List Char) : (splitRuns s).flatten = s := by
  cases s with
  | nil => rfl
  | cons c rest => simp [splitRuns, splitRunsAux_flatten]

theorem takeFit_append (width : Nat) : ∀ (l : List (List Char)) (n : Nat),
    (takeFit width n l).1 ++ (takeFit width n l).2 = l := by
  intro l
  induction l with
  | nil => intro n; rfl
  | cons c rest ih =>
    intro n
    simp only [takeFit]
    split
    · rw [List.cons_append, ih]
    · rfl

theorem takeFit_head_no_fit (width n : Nat) (c : List Char) (rest : List (List Char))
    (h : (takeFit width n (c :: rest)).1 = []) : ¬(n + c.length ≤ width) := by
  intro hle
  simp only [takeFit, if_pos hle] at h
  exact absurd h (List.cons_ne_nil _ _)

theorem chunksMeasure_append (a b : List (List Char)) :
    chunksMeasure (a ++ b) = chunksMeasure a + chunksMeasure b := by
  simp only [chunksMeasure, List.map_append, List.sum_append, List.length_append]
  omega

theorem chunksMeasure_pos (c : List Char) (rest : List (List Char)) :
    1 ≤ chunksMeasure (c :: rest) := by
  simp only [chunksMeasure, List.map_cons, List.sum_cons, List.length_cons]
  omega

theorem longWordEnd_pos (c : List Char) (spaceLeft : Nat) (h : 1 ≤ spaceLeft) :
    1 ≤ longWordEnd c spaceLeft := by
  cases hh : lastHyphenIdx (c.take spaceLeft) with
  | none =>
    simp only [longWordEnd, hh]
    exact h
  | some k =>
    simp only [longWordEnd, hh]
    split
    · omega
    · exact h

theorem wrapChunksF_flatten (width : Nat) : ∀ (fuel : Nat) (chunks : List (List Char)),
    chunksMeasure chunks ≤ fuel →
    (wrapChunksF width fuel chunks).flatten = chunks.flatten := by
  intro fuel
  induction fuel with
  | zero =>
    intro chunks h
    cases chunks with
    | nil => rfl
    | cons c rest =>
      exfalso
      have := chunksMeasure_pos c rest
      omega
  | succ fuel ih =>
    intro chunks h
    cases chunks with
    | nil => rfl
    | cons c0 rest0 =>
      rcases ht : takeFit width 0 (c0 :: rest0) with ⟨cur, rem⟩
      have hta : cur ++ rem = c0 :: rest0 := by
        have h' := takeFit_append width (c0 :: rest0) 0
        rw [ht] at h'
        exact h'
      have hmeq : chunksMeasure cur + chunksMeasure rem = chunksMeasure (c0 :: rest0) := by
        rw [← chunksMeasure_append, hta]
      cases rem with
      | nil =>
        have hcur : cur = c0 :: rest0 := by simpa using hta
        simp only [wrapChunksF, ht]
        rw [hcur]
        simp
      | cons c rest =>
        simp only [wrapChunksF, ht]
        by_cases hwc : width < c.length
        · rw [if_pos hwc]
          set sl := if width < 1 then 1 else width - (cur.map List.length).sum with hsl
          set E := longWordEnd c sl with hE
          have hclen : 1 ≤ c.length := by omega
          have hdec : chunksMeasure (c.drop E :: rest) ≤ fuel := by
            by_cases hcur : cur = []
            · have hsl' : 1 ≤ sl := by
                rw [hsl, hcur]
                by_cases hw1 : width < 1
                · rw [if_pos hw1]
                · rw [if_neg hw1]
                  simp only [List.map_nil, List.sum_nil, Nat.sub_zero]
                  omega
              have hE1 : 1 ≤ E := hE ▸ longWordEnd_pos c sl hsl'
              have hlt : chunksMeasure (c.drop E :: rest) < chunksMeasure (c :: rest) := by
                simp only [chunksMeasure, List.map_cons, List.sum_cons, List.length_cons,
                  List.length_drop]
                omega
              rw [hcur] at hmeq
              have hz : chunksMeasure ([] : List (List Char)) = 0 := rfl
              omega
            · have hcm : 1 ≤ chunksMeasure cur := by
                cases cur with
                | nil => exact absurd rfl hcur
                | cons x xs => exact chunksMeasure_pos x xs
              have hle : chunksMeasure (c.drop E :: rest) ≤ chunksMeasure (c :: rest) := by
                simp only [chunksMeasure, List.map_cons, List.sum_cons, List.length_cons,
                  List.length_drop]
                omega
              omega
          rw [List.flatten_cons, ih (c.drop E :: rest) hdec, ← hta]
          conv_rhs => rw [← List.take_append_drop E c]
          simp only [List.flatten_append, List.flatten_cons, List.flatten_nil,
            List.append_nil, List.append_assoc]
        · rw [if_neg hwc]
          have hcur : cur ≠ [] := by
            intro hc0
            have h1 : (takeFit width 0 (c0 :: rest0)).1 = [] := by rw [ht, hc0]
            have h2 := takeFit_head_no_fit width 0 c0 rest0 h1
            have hceq : c = c0 := by
              rw [hc0] at hta
              simp only [List.nil_append, List.cons.injEq] at hta
              exact hta.1
            rw [hceq] at hwc
            omega
          rw [if_neg (fun hh => hcur (List.isEmpty_iff.mp hh))]
          have hcm : 1 ≤ chunksMeasure cur := by
            cases cur with
            | nil => exact absurd rfl hcur
            | cons x xs => exact chunksMeasure_pos x xs
          have hdec : chunksMeasure (c :: rest) ≤ fuel := by omega
          rw [List.flatten_append, ih (c :: rest) hdec, ← hta]
          simp [List.flatten_append, List.append_assoc]

theorem pyWrap_flatten (width : Nat) (s : List Char) :
    (pyWrap width s).flatten = mungeWhitespace s := by
  simp only [pyWrap]
  rw [wrapChunksF_flatten width _ _ (Nat.le_succ _), splitRuns_flatten]

theorem splitOnNewline_no_newline : ∀ (p : List Char), '\n' ∉ p →
    splitOnNewline p = [p] := by
  intro p
  induction p with
  | nil => intro _; rfl
  | cons c rest ih =>
    intro hmem
    have hc : c ≠ '\n' := fun h => hmem (h ▸ List.mem_cons_self c rest)
    have hrest : '\n' ∉ rest := fun h => hmem (List.mem_cons_of_mem c h)
    simp only [splitOnNewline, if_neg hc, ih hrest]

/-- C2 amended: for every paragraph (no newline) that contains no tab
character, and every positive wrap width, concatenating the display lines
`preprocess_text` produces for it reproduces the paragraph exactly.  (The
tab restriction is forced by `lossless_wrap_counterexample`: the wrapper
expands tabs to spaces before wrapping.) -/
theorem lossless_wrap (p : List Char) (w : Nat) (hw : 0 < w)
    (hn : '\n' ∉ p) (ht : '\t' ∉ p) :
    ((preprocess_text p w).displayLines).flatten = p := by
  have hw0 : w ≠ 0 := by omega
  simp only [preprocess_text, if_neg hw0]
  rw [splitOnNewline_no_newline p hn]
  simp only [List.map_cons, List.map_nil, List.flatten_cons, List.flatten_nil,
    List.append_nil]
  by_cases hp : p = []
  · rw [hp]
    simp [wrapParagraph]
  · simp only [wrapParagraph, if_neg hp]
    have hfl : (pyWrap w p).flatten = p := by
      rw [pyWrap_flatten, mungeWhitespace_no_tab p ht]
    by_cases hwr : pyWrap w p = []
    · exfalso
      rw [hwr] at hfl
      exact hp hfl.symm
    · rw [if_neg hwr]
      exact hfl

/-- Witness for the amended C2: wrapping the tab-free paragraph
`"cat dog"` at width 5 is lossless. -/
theorem lossless_wrap_witness :
    (0 < 5) ∧ '\n' ∉ "cat dog".toList ∧ '\t' ∉ "cat dog".toList ∧
    ((preprocess_text ("cat dog".toList) 5).displayLines).flatten =
      "cat dog".toList :=
  ⟨by decide, by decide, by decide,
    lossless_wrap ("cat dog".toList) 5 (by decide) (by decide) (by decide)⟩

/-- Counterexample to C2 as stated: the newline-free paragraph `"a\tb"`
at width 80 is not reproduced — the wrapper first expands the tab to
seven spaces (Python `textwrap` keeps `expand_tabs=True`), so characters
are changed and added. -/
theorem lossless_wrap_counterexample :
    (0 : Nat) < 80 ∧ '\n' ∉ "a\tb".toList ∧
    ((preprocess_text ("a\tb".toList) 80).displayLines).flatten ≠ "a\tb".toList := by
  decide
